import Mathlib

/-!
Verification of the karakeep-digest assembly pipeline.

The development shallowly embeds the TypeScript sources:
  * `categorizer.ts` — section selection engine (`categorize` and helpers),
  * `karakeep.ts`   — retrieval client (`apiRequest`),
  * `summarizer.ts` — summarization stage (`summarizeArticle`,
    `toSummarizedBookmark`, `mapWithConcurrency`, `summarizeSections`).

Timestamps are integers in milliseconds (a JS `Date` value).  The calls to
`Math.random()` are modelled nondeterministically: every shuffle
(`.sort(() => Math.random() - 0.5)`, which rearranges the array in an
implementation-defined way, hence a permutation) becomes a function
parameter constrained to produce permutations, and every random index
(`Math.floor(Math.random() * len)`, always in `[0, len)`) becomes a `Nat`
parameter reduced modulo the pool size.
-/

/-! ## Data model (`types.ts`) -/

structure Tag where
  id : String
  name : String
deriving DecidableEq, Repr

structure BookmarkContent where
  htmlContent : Option String
  text : Option String
  contentAssetId : Option String
deriving DecidableEq, Repr

structure Bookmark where
  id : String
  url : String
  title : Option String
  summary : Option String
  createdAt : Int
  archived : Bool
  favourited : Bool
  tags : List Tag
  content : BookmarkContent
deriving DecidableEq, Repr

structure TagRoundupSec where
  tag : String
  bookmarks : List Bookmark
deriving DecidableEq, Repr

structure DigestStats where
  totalUnread : Nat
  generatedAt : Int
deriving DecidableEq, Repr

structure DigestSections where
  recentlySaved : List Bookmark
  buriedTreasure : List Bookmark
  thisMonthLastYear : List Bookmark
  tagRoundup : Option TagRoundupSec
  randomPick : Option Bookmark
  fromTheArchives : Option Bookmark
  stats : DigestStats
deriving DecidableEq, Repr

/-! ## JavaScript truthiness helpers

`a || b` on optional strings: `undefined`, `null` and `""` are falsy. -/

/-- Models `a || d` where `a : string | undefined` and the result is a string. -/
def strOrElse (a : Option String) (d : String) : String :=
  match a with
  | some s => if s = "" then d else s
  | none => d

/-- Models `a || b` on two strings. -/
def strOrElseS (a b : String) : String :=
  if a = "" then b else a

/-- Models `a || b` where both sides are `string | undefined`. -/
def jsOrOpt (a b : Option String) : Option String :=
  match a with
  | some s => if s = "" then b else some s
  | none => b

/-- Truthiness of a `string | undefined` value: `none` when falsy. -/
def jsTruthyStr (a : Option String) : Option String :=
  match a with
  | some s => if s = "" then none else some s
  | none => none

/-! ## Section selection engine (`categorizer.ts`, current version) -/

def BURIED_TREASURE_DAYS : Int := 30
def BURIED_TREASURE_COUNT : Nat := 3
def THIS_MONTH_LAST_YEAR_COUNT : Nat := 3
def MAX_ITEMS_PER_SECTION : Nat := 5
def MIN_TAG_ITEMS : Nat := 3
def MIN_CONTENT_LENGTH : Nat := 100
def RECENTLY_SAVED_COUNT : Nat := 3
def RECENTLY_SAVED_DAYS : Int := 30

/-- Evaluates `bookmark.content?.htmlContent || bookmark.content?.text || ""`. -/
def contentTextOf (b : Bookmark) : String :=
  strOrElse b.content.htmlContent (strOrElse b.content.text "")

/-- The filter `filterSufficientContent`: keep bookmarks whose content or summary has at
least `MIN_CONTENT_LENGTH` characters. -/
def filterSufficientContent (bookmarks : List Bookmark) : List Bookmark :=
  bookmarks.filter fun b =>
    (contentTextOf b).length ≥ MIN_CONTENT_LENGTH ∨
      (strOrElse b.summary "").length ≥ MIN_CONTENT_LENGTH

/-- The random choices consumed by one run of `categorize`: the three
shuffles and the three uniformly chosen indices. -/
structure RandParams where
  shuffleRecent : List Bookmark → List Bookmark
  shuffleBuried : List Bookmark → List Bookmark
  shuffleLastYear : List Bookmark → List Bookmark
  tagIdx : Nat
  pickIdx : Nat
  archiveIdx : Nat

/-- The shuffles really shuffle: each returns a permutation of its input. -/
def GoodParams (p : RandParams) : Prop :=
  (∀ l, (p.shuffleRecent l).Perm l) ∧
    (∀ l, (p.shuffleBuried l).Perm l) ∧
      (∀ l, (p.shuffleLastYear l).Perm l)

/-- Models `list[Math.floor(Math.random() * list.length)]` with the random index
modelled by `idx` (reduced into range), `none` on an empty list. -/
def pickRandom (l : List Bookmark) (idx : Nat) : Option Bookmark :=
  if h : l.length = 0 then none
  else some (l.get ⟨idx % l.length, Nat.mod_lt idx (Nat.pos_of_ne_zero h)⟩)

/-- The helper `getRecentlySaved`: random sample of `count` bookmarks created within
the last `days` days. -/
def getRecentlySaved (shuffle : List Bookmark → List Bookmark)
    (bookmarks : List Bookmark) (days : Int) (count : Nat) (now : Int) :
    List Bookmark :=
  let cutoff := now - days * 24 * 60 * 60 * 1000
  let recent := bookmarks.filter fun b => b.createdAt ≥ cutoff
  (shuffle recent).take count

/-- Insert a bookmark under a tag name, preserving the `Map`'s insertion
order (`tagMap.get(tag) || []`, push, `tagMap.set`). -/
def updateTagMap (m : List (String × List Bookmark)) (tag : String)
    (b : Bookmark) : List (String × List Bookmark) :=
  match m with
  | [] => [(tag, [b])]
  | (t, bs) :: rest =>
      if t = tag then (t, bs ++ [b]) :: rest
      else (t, bs) :: updateTagMap rest tag b

/-- The helper `buildTagFrequencyMap`: tag name → bookmarks carrying it, in first-seen
order (JS `Map` iterates in insertion order). -/
def buildTagFrequencyMap (bookmarks : List Bookmark) :
    List (String × List Bookmark) :=
  bookmarks.foldl (fun m b => b.tags.foldl (fun m tg => updateTagMap m tg.name b) m) []

/-- The helper `findTopTag`: collect every tag with at least `MIN_TAG_ITEMS` still
unused bookmarks (capped at `MAX_ITEMS_PER_SECTION`), then pick one of the
qualifying tags at random. -/
def findTopTag (idx : Nat) (tagMap : List (String × List Bookmark))
    (usedIds : List String) : Option TagRoundupSec :=
  let qualifying : List TagRoundupSec := tagMap.filterMap fun e =>
    let available := e.2.filter fun b => ¬ usedIds.contains b.id
    if available.length ≥ MIN_TAG_ITEMS then
      some ⟨e.1, available.take MAX_ITEMS_PER_SECTION⟩
    else none
  if h : qualifying.length = 0 then none
  else some (qualifying.get ⟨idx % qualifying.length, Nat.mod_lt idx (Nat.pos_of_ne_zero h)⟩)

/-! The body of `categorize`, stage by stage.  Each `let` of the source
becomes a named definition so the theorems can speak about the
intermediate pools; `categorize` below assembles them unchanged. -/

def recentlySavedOf (p : RandParams) (now : Int) (bookmarks : List Bookmark) :
    List Bookmark :=
  getRecentlySaved p.shuffleRecent (filterSufficientContent bookmarks)
    RECENTLY_SAVED_DAYS RECENTLY_SAVED_COUNT now

def used1Of (p : RandParams) (now : Int) (bookmarks : List Bookmark) : List String :=
  (recentlySavedOf p now bookmarks).map (·.id)

/-- The Buried Treasure candidate pool: valid bookmarks not yet used and
created before `now - 30 days`. -/
def buriedCandidatesOf (p : RandParams) (now : Int) (bookmarks : List Bookmark) :
    List Bookmark :=
  let thirtyDaysAgo := now - BURIED_TREASURE_DAYS * 24 * 60 * 60 * 1000
  (filterSufficientContent bookmarks).filter fun b =>
    ¬ (used1Of p now bookmarks).contains b.id ∧ b.createdAt < thirtyDaysAgo

def buriedTreasureOf (p : RandParams) (now : Int) (bookmarks : List Bookmark) :
    List Bookmark :=
  (p.shuffleBuried (buriedCandidatesOf p now bookmarks)).take BURIED_TREASURE_COUNT

def used2Of (p : RandParams) (now : Int) (bookmarks : List Bookmark) : List String :=
  used1Of p now bookmarks ++ (buriedTreasureOf p now bookmarks).map (·.id)

def lastYearCandidatesOf (p : RandParams) (now : Int)
    (bookmarks lastYearBookmarks archivedBookmarks : List Bookmark) : List Bookmark :=
  (filterSufficientContent lastYearBookmarks ++ filterSufficientContent archivedBookmarks).filter
    fun b => ¬ (used2Of p now bookmarks).contains b.id

def thisMonthLastYearOf (p : RandParams) (now : Int)
    (bookmarks lastYearBookmarks archivedBookmarks : List Bookmark) : List Bookmark :=
  (p.shuffleLastYear (lastYearCandidatesOf p now bookmarks lastYearBookmarks archivedBookmarks)).take
    THIS_MONTH_LAST_YEAR_COUNT

def used3Of (p : RandParams) (now : Int)
    (bookmarks lastYearBookmarks archivedBookmarks : List Bookmark) : List String :=
  used2Of p now bookmarks ++
    (thisMonthLastYearOf p now bookmarks lastYearBookmarks archivedBookmarks).map (·.id)

def tagRoundupOf (p : RandParams) (now : Int)
    (bookmarks lastYearBookmarks archivedBookmarks : List Bookmark) : Option TagRoundupSec :=
  findTopTag p.tagIdx (buildTagFrequencyMap (filterSufficientContent bookmarks))
    (used3Of p now bookmarks lastYearBookmarks archivedBookmarks)

def used4Of (p : RandParams) (now : Int)
    (bookmarks lastYearBookmarks archivedBookmarks : List Bookmark) : List String :=
  used3Of p now bookmarks lastYearBookmarks archivedBookmarks ++
    (match tagRoundupOf p now bookmarks lastYearBookmarks archivedBookmarks with
     | some tr => tr.bookmarks.map (·.id)
     | none => [])

def remainingOf (p : RandParams) (now : Int)
    (bookmarks lastYearBookmarks archivedBookmarks : List Bookmark) : List Bookmark :=
  (filterSufficientContent bookmarks).filter fun b =>
    ¬ (used4Of p now bookmarks lastYearBookmarks archivedBookmarks).contains b.id

def randomPickOf (p : RandParams) (now : Int)
    (bookmarks lastYearBookmarks archivedBookmarks : List Bookmark) : Option Bookmark :=
  pickRandom (remainingOf p now bookmarks lastYearBookmarks archivedBookmarks) p.pickIdx

def availableArchivedOf (p : RandParams) (now : Int)
    (bookmarks lastYearBookmarks archivedBookmarks : List Bookmark) : List Bookmark :=
  (filterSufficientContent archivedBookmarks).filter fun b =>
    ¬ (used4Of p now bookmarks lastYearBookmarks archivedBookmarks).contains b.id

def fromTheArchivesOf (p : RandParams) (now : Int)
    (bookmarks lastYearBookmarks archivedBookmarks : List Bookmark) : Option Bookmark :=
  pickRandom (availableArchivedOf p now bookmarks lastYearBookmarks archivedBookmarks) p.archiveIdx

/-- The engine `categorize` (current version): partition the three input collections
into the six digest sections, consuming the used-id set in section order. -/
def categorize (p : RandParams) (now : Int)
    (bookmarks lastYearBookmarks archivedBookmarks : List Bookmark) : DigestSections where
  recentlySaved := recentlySavedOf p now bookmarks
  buriedTreasure := buriedTreasureOf p now bookmarks
  thisMonthLastYear := thisMonthLastYearOf p now bookmarks lastYearBookmarks archivedBookmarks
  tagRoundup := tagRoundupOf p now bookmarks lastYearBookmarks archivedBookmarks
  randomPick := randomPickOf p now bookmarks lastYearBookmarks archivedBookmarks
  fromTheArchives := fromTheArchivesOf p now bookmarks lastYearBookmarks archivedBookmarks
  stats := { totalUnread := bookmarks.length, generatedAt := now }

/-! Section-identifier bookkeeping for the exclusivity claims. -/

def optIds : Option Bookmark → List String
  | some b => [b.id]
  | none => []

def tagIds : Option TagRoundupSec → List String
  | some tr => tr.bookmarks.map (·.id)
  | none => []

def sectionIdLists (s : DigestSections) : List (List String) :=
  [s.recentlySaved.map (·.id),
   s.buriedTreasure.map (·.id),
   s.thisMonthLastYear.map (·.id),
   tagIds s.tagRoundup,
   optIds s.randomPick,
   optIds s.fromTheArchives]

def disjointIds (a b : List String) : Bool :=
  a.all fun x => ¬ b.contains x

def pairwiseDisjoint : List (List String) → Bool
  | [] => true
  | l :: ls => (ls.all fun l' => disjointIds l l') && pairwiseDisjoint ls

/-- Exclusivity of a section assignment: no bookmark id occurs in two
different sections. -/
def sectionsDisjointB (s : DigestSections) : Bool :=
  pairwiseDisjoint (sectionIdLists s)

/-! ## Priority scoring (`calculatePriorityScore`) -/

/-- Models `toLowerCase()` on the ASCII range (the tag names in play are ASCII). -/
def jsToLowerChar (c : Char) : Char :=
  if 'A' ≤ c ∧ c ≤ 'Z' then Char.ofNat (c.toNat + 32) else c

def jsToLower (s : String) : String := String.mk (s.data.map jsToLowerChar)

/-- Evaluates `priorityTags.some(pt => bookmarkTagsLower.includes(pt))`. -/
def hasPriorityTag (priorityTags : List String) (b : Bookmark) : Bool :=
  priorityTags.any fun pt => (b.tags.map fun t => jsToLower t.name).contains pt

/-- The scorer `calculatePriorityScore`: logarithmic age base plus fixed boosts.
`priorityTags` stands for `getPriorityTags()` (the configured list, already
lower-cased); `now` and `createdAt` are millisecond timestamps. -/
noncomputable def calculatePriorityScore (priorityTags : List String)
    (b : Bookmark) (now : Int) : ℝ :=
  let ageInDays : ℝ := ((now - b.createdAt : Int) : ℝ) / (1000 * 60 * 60 * 24)
  Real.log (ageInDays + 1) * 10 +
    (if hasPriorityTag priorityTags b then 20 else 0) +
    (if (contentTextOf b).length > 500 then 5 else 0) +
    (if (contentTextOf b).length > 2000 then 3 else 0)

/-! ## Read time (`estimateReadTime`, current version) and `daysAgo` -/

/-- Whitespace for the purposes of `\s` (the ASCII part; the digest's
content is ASCII in every input we evaluate). -/
def isJsSpace (c : Char) : Bool :=
  c = ' ' ∨ c = '\t' ∨ c = '\n' ∨ c = '\r' ∨ c = '\x0b' ∨ c = '\x0c'

/-- Scan `[^>]*>`: skip to the first `'>'`, returning the remainder after
it, or `none` when no `'>'` follows. -/
def findTagEnd : List Char → Option (List Char)
  | [] => none
  | c :: cs => if c = '>' then some cs else findTagEnd cs

theorem findTagEnd_length {l r : List Char} (h : findTagEnd l = some r) :
    r.length < l.length := by
  induction l with
  | nil => simp [findTagEnd] at h
  | cons c cs ih =>
    unfold findTagEnd at h
    by_cases hc : c = '>'
    · simp [hc] at h
      simp [← h]
    · simp [hc] at h
      exact Nat.lt_trans (ih h) (by simp)

/-- Models `content.replace(/<[^>]*>/g, " ")`: each markup tag becomes one space;
a `'<'` with no closing `'>'` is left in place. -/
def stripTags (l : List Char) : List Char :=
  match l with
  | [] => []
  | c :: cs =>
    if c = '<' then
      match h : findTagEnd cs with
      | some rest => ' ' :: stripTags rest
      | none => c :: stripTags cs
    else c :: stripTags cs
termination_by l.length
decreasing_by
  · simp only [List.length_cons]
    exact Nat.lt_trans (findTagEnd_length h) (Nat.lt_succ_self _)
  · simp
  · simp

/-- Counts `.trim().split(/\s+/).filter(w => w.length > 0).length`: the number of
maximal runs of non-whitespace characters.  The flag records whether the
scan is inside a word. -/
def wordCountAux : List Char → Bool → Nat
  | [], _ => 0
  | c :: cs, inWord =>
    if isJsSpace c then wordCountAux cs false
    else (if inWord then 0 else 1) + wordCountAux cs true

def wordCountOf (l : List Char) : Nat := wordCountAux l false

/-- The estimator `estimateReadTime` (current version): strip markup, count words, `ceil(words / 238)`,
clamp to `[1, 90]`; `1` when the argument is absent or empty (`!content`). -/
def estimateReadTime (content : Option String) : Nat :=
  match content with
  | none => 1
  | some s =>
    if s = "" then 1
    else
      let textOnly := stripTags s.data
      let wordCount := wordCountOf textOnly
      let minutes := (wordCount + 237) / 238
      max 1 (min minutes 90)

/-- Computes `daysAgo`: `Math.floor((now - date) / 86400000)`. -/
def daysAgo (now date : Int) : Int :=
  (now - date).fdiv (1000 * 60 * 60 * 24)

/-! The superseded `categorize` kept two alternatives the current code
replaced: the oldest-first Buried Treasure selection.  It is embedded to
state what the current selection is *not*. -/

/-- Stable insertion into a list sorted by ascending `createdAt`. -/
def insertByCreatedAt (b : Bookmark) : List Bookmark → List Bookmark
  | [] => [b]
  | x :: xs =>
    if b.createdAt < x.createdAt then b :: x :: xs
    else x :: insertByCreatedAt b xs

/-- Models `.sort((a, b) => a.createdAt - b.createdAt)` — ascending, stable. -/
def sortByCreatedAt : List Bookmark → List Bookmark
  | [] => []
  | b :: bs => insertByCreatedAt b (sortByCreatedAt bs)

/-- The previous version's Buried Treasure rule: the oldest
`BURIED_TREASURE_COUNT` candidates. -/
def buriedTreasureOldestFirst (pool : List Bookmark) : List Bookmark :=
  (sortByCreatedAt pool).take BURIED_TREASURE_COUNT

/-! ## Retrieval client (`karakeep.ts`: `apiRequest`) -/

def MAX_RETRIES : Nat := 3
def RETRY_DELAY_MS : Nat := 1000

/-- What one `fetch` call yields: an HTTP response (status, parsed
`Retry-After` seconds when the header is present, body text) or a thrown
network error. -/
inductive FetchOutcome where
  | response (status : Nat) (retryAfter : Option Nat) (body : String)
  | netError (msg : String)

/-- Observable behaviour of one `apiRequest` call: the value or error it
settles with, how many `fetch` calls it made, and the delays it slept. -/
structure ApiResult where
  outcome : Except String String
  fetches : Nat
  sleeps : List Nat
deriving Repr

/-- The delay chosen for a 429: `parseInt(retryAfter) * 1000` when the
header is present, else 5000 ms. -/
def rateLimitDelay (retryAfter : Option Nat) : Nat :=
  match retryAfter with
  | some s => s * 1000
  | none => 5000

/-- One iteration of the retry loop of `apiRequest`.  `responses` gives the
outcome of the n-th `fetch` call; `attempt` is the loop counter (note that
the 429 branch's `continue` still runs the `attempt++` update, so a 429
consumes an attempt).  `remaining = MAX_RETRIES + 1 - attempt` counts the
loop iterations left (including the current one); it reaches `0` exactly
when the `attempt ≤ MAX_RETRIES` loop condition fails and the final
`throw lastError` runs. -/
def apiRequestGo (responses : Nat → FetchOutcome) :
    Nat → Nat → Nat → Option String → List Nat → ApiResult
  | 0, _, callIdx, lastError, sleeps =>
      { outcome := Except.error (lastError.getD "Unknown error during API request"),
        fetches := callIdx, sleeps := sleeps }
  | remaining + 1, attempt, callIdx, lastError, sleeps =>
      match responses callIdx with
      | .response status retryAfter body =>
          if status = 429 then
            apiRequestGo responses remaining (attempt + 1) (callIdx + 1) lastError
              (sleeps ++ [rateLimitDelay retryAfter])
          else if status ≥ 500 then
            let e := "Server error: " ++ toString status
            apiRequestGo responses remaining (attempt + 1) (callIdx + 1) (some e)
              (if attempt < MAX_RETRIES then sleeps ++ [RETRY_DELAY_MS * 2 ^ (attempt - 1)] else sleeps)
          else if ¬ (200 ≤ status ∧ status < 300) then
            let e := "API error " ++ toString status ++ ": " ++ body.take 200
            apiRequestGo responses remaining (attempt + 1) (callIdx + 1) (some e)
              (if attempt < MAX_RETRIES then sleeps ++ [RETRY_DELAY_MS * 2 ^ (attempt - 1)] else sleeps)
          else
            { outcome := Except.ok body, fetches := callIdx + 1, sleeps := sleeps }
      | .netError msg =>
          apiRequestGo responses remaining (attempt + 1) (callIdx + 1) (some msg)
            (if attempt < MAX_RETRIES then sleeps ++ [RETRY_DELAY_MS * 2 ^ (attempt - 1)] else sleeps)

/-- The client `apiRequest`: up to `MAX_RETRIES` attempts over the given stream of
fetch outcomes. -/
def apiRequest (responses : Nat → FetchOutcome) : ApiResult :=
  apiRequestGo responses MAX_RETRIES 1 0 none []

/-! ## Summarization stage (`summarizer.ts`) -/

def MAX_CONCURRENT : Nat := 5
def CONTENT_MAX_LENGTH : Nat := 8000

structure ArticleSummary where
  summary : String
deriving DecidableEq, Repr

structure ClusterSynthesis where
  overview : String
  keyInsights : List String
  standout : String
deriving DecidableEq, Repr

structure SummarizedBookmark extends Bookmark where
  aiSummary : String
  daysAgo : Int
  readTime : Nat
deriving DecidableEq, Repr

structure TagRoundupFinal where
  tag : String
  bookmarks : List SummarizedBookmark
  synthesis : ClusterSynthesis
deriving DecidableEq, Repr

structure SummarizedDigest where
  recentlySaved : List SummarizedBookmark
  buriedTreasure : List SummarizedBookmark
  thisMonthLastYear : List SummarizedBookmark
  tagRoundup : Option TagRoundupFinal
  randomPick : Option SummarizedBookmark
  fromTheArchives : Option SummarizedBookmark
  stats : DigestStats
deriving DecidableEq, Repr

/-- The external collaborators of the summarizer: the text-generation
provider (`complete`, which may throw), `JSON.parse` at the two response
types (which may throw), the best-effort content fetch
(`fetchBookmarkContent`, which never throws), and the two prompt files. -/
structure SummarizerEnv where
  complete : String → Nat → Except String String
  parseArticleJson : String → Except String ArticleSummary
  parseClusterJson : String → Except String ClusterSynthesis
  fetchContent : Bookmark → Option String
  promptSingle : String
  promptCluster : String

/-- Models `String.prototype.replace` with a string pattern replaces only the
first occurrence. -/
def replaceFirst (s pat rep : String) : String :=
  match s.splitOn pat with
  | [] => s
  | [_] => s
  | a :: rest => a ++ rep ++ String.intercalate pat rest

/-- The truncation `truncateContent`: keep a prefix and a suffix with a marker between
them when the content exceeds `CONTENT_MAX_LENGTH`. -/
def truncateContent (content : String) : String :=
  if content.length ≤ CONTENT_MAX_LENGTH then content
  else
    let halfLength := CONTENT_MAX_LENGTH / 2 - 50
    let startPart := content.take halfLength
    let endPart := content.drop (content.length - halfLength)
    startPart ++ "\n\n[... content truncated ...]\n\n" ++ endPart

/-- The parser `parseJsonResponse`: strip a leading/trailing markdown code fence, then
parse. -/
def parseJsonResponse {α : Type} (parse : String → Except String α)
    (response : String) : Except String α :=
  let cleaned := response.trim
  let cleaned :=
    if cleaned.startsWith "```json" then cleaned.drop 7
    else if cleaned.startsWith "```" then cleaned.drop 3
    else cleaned
  let cleaned := if cleaned.endsWith "```" then cleaned.dropRight 3 else cleaned
  parse cleaned.trim

/-- The fallback summary: the pre-existing summary, else the title, else a
generic placeholder. -/
def fallbackSummary (b : Bookmark) : String :=
  strOrElse b.summary (strOrElse b.title "No summary available")

/-- The per-item `summarizeArticle`: prompt the provider and parse its response; any
failure falls back locally. -/
def summarizeArticle (env : SummarizerEnv) (b : Bookmark) : ArticleSummary :=
  let contentText := contentTextOf b
  let content := truncateContent
    (strOrElseS contentText (strOrElse b.summary (strOrElse b.title "")))
  let prompt := replaceFirst (replaceFirst env.promptSingle "\x7b\x7bTITLE\x7d\x7d" (strOrElse b.title "Untitled"))
    "\x7b\x7bCONTENT\x7d\x7d" content
  match env.complete prompt 300 >>= parseJsonResponse env.parseArticleJson with
  | .ok res => res
  | .error _ => { summary := fallbackSummary b }

/-- The cluster call `synthesizeCluster`: one combined prompt over the cluster; a
deterministic fallback on failure. -/
def synthesizeCluster (env : SummarizerEnv) (tag : String)
    (bookmarks : List Bookmark) : ClusterSynthesis :=
  let articles := String.intercalate "\n\n---\n\n" (bookmarks.map fun b =>
    "## " ++ strOrElse b.title "Untitled" ++ "\n" ++
      truncateContent (strOrElseS (contentTextOf b) (strOrElse b.summary "")))
  let prompt := replaceFirst (replaceFirst (replaceFirst env.promptCluster
    "\x7b\x7bCOUNT\x7d\x7d" (toString bookmarks.length)) "\x7b\x7bTAG\x7d\x7d" tag) "\x7b\x7bARTICLES\x7d\x7d" articles
  match env.complete prompt 500 >>= parseJsonResponse env.parseClusterJson with
  | .ok res => res
  | .error _ =>
    { overview := "A collection of " ++ toString bookmarks.length ++
        " articles about " ++ tag ++ "."
      keyInsights := (bookmarks.take 3).map fun b => strOrElse b.title "Untitled"
      standout := "Check out \"" ++
        (match bookmarks.head? with
         | some b => strOrElse b.title "the first article"
         | none => "the first article") ++ "\" first." }

/-- The content used for the read time: the re-fetched body, else the
crawled HTML, else the plain text. -/
def rawContentOf (env : SummarizerEnv) (b : Bookmark) : Option String :=
  jsOrOpt (env.fetchContent b) (jsOrOpt b.content.htmlContent b.content.text)

/-- The mapper `toSummarizedBookmark`: attach the AI summary, `daysAgo` and the read
time (0 — hidden — when no content is available). -/
def toSummarizedBookmark (env : SummarizerEnv) (now : Int) (b : Bookmark) :
    SummarizedBookmark :=
  let summary := summarizeArticle env b
  let readTime :=
    match jsTruthyStr (rawContentOf env b) with
    | some s => estimateReadTime (some s)
    | none => 0
  { toBookmark := b
    aiSummary := summary.summary
    daysAgo := daysAgo now b.createdAt
    readTime := readTime }

/-! ## The bounded-concurrency pool (`mapWithConcurrency`)

`mapWithConcurrency` spawns `min(concurrency, items.length)` workers, each
repeatedly shifting the next `[index, item]` entry off the shared queue and
writing `fn(item)` into `results[index]`.  The queue shift happens with no
`await` in between, hence atomically.  The model below is a small-step
machine whose scheduler (which worker moves next, and whether a busy
worker finishes before another grabs) is arbitrary. -/

/-- Builds `[...items.entries()]` starting at index `n`. -/
def enumEntries {T : Type} : Nat → List T → List (Nat × T)
  | _, [] => []
  | n, x :: xs => (n, x) :: enumEntries (n + 1) xs

inductive WorkerSt (T : Type) where
  | idle : WorkerSt T
  | busy (idx : Nat) (item : T) : WorkerSt T
  | finished : WorkerSt T
deriving DecidableEq, Repr

structure PoolState (T R : Type) where
  queue : List (Nat × T)
  results : List (Option R)
  workers : List (WorkerSt T)
deriving DecidableEq, Repr

/-- The initial state of one `mapWithConcurrency(items, fn, concurrency)`
call: the full entry queue, an unwritten result slot per item, and
`Math.min(concurrency, items.length)` idle workers. -/
def initState {T R : Type} (items : List T) (concurrency : Nat) : PoolState T R :=
  { queue := enumEntries 0 items
    results := List.replicate items.length none
    workers := List.replicate (min concurrency items.length) .idle }

/-- One scheduler step:
`grab` — an idle worker shifts the queue head and starts processing it;
`finish` — a busy worker's `fn` call resolves and it writes its slot;
`retire` — an idle worker sees the empty queue and its loop ends. -/
inductive PoolStep {T R : Type} (f : T → R) : PoolState T R → PoolState T R → Prop where
  | grab (s : PoolState T R) (w i : Nat) (x : T) (rest : List (Nat × T))
      (hw : s.workers.get? w = some .idle) (hq : s.queue = (i, x) :: rest) :
      PoolStep f s { queue := rest, results := s.results,
                     workers := s.workers.set w (.busy i x) }
  | finish (s : PoolState T R) (w i : Nat) (x : T)
      (hw : s.workers.get? w = some (.busy i x)) :
      PoolStep f s { queue := s.queue, results := s.results.set i (some (f x)),
                     workers := s.workers.set w .idle }
  | retire (s : PoolState T R) (w : Nat)
      (hw : s.workers.get? w = some .idle) (hq : s.queue = []) :
      PoolStep f s { queue := s.queue, results := s.results,
                     workers := s.workers.set w .finished }

/-- All states one run can pass through, under any scheduling. -/
def PoolReach {T R : Type} (f : T → R) : PoolState T R → PoolState T R → Prop :=
  Relation.ReflTransGen (PoolStep f)

/-- A finished run: no worker can move any more. -/
def PoolDone {T R : Type} (f : T → R) (s : PoolState T R) : Prop :=
  ∀ s', ¬ PoolStep f s s'

/-- Number of `fn` applications in flight. -/
def inFlight {T R : Type} (s : PoolState T R) : Nat :=
  s.workers.countP fun w => match w with | .busy _ _ => true | _ => false

/-- The result `mapWithConcurrency` resolves with — `Promise.all` of the
workers followed by `return results`; the pool theorems show every
terminal run of the machine produces exactly these values. -/
def mapWithConcurrency {T R : Type} (items : List T) (fn : T → R)
    (_concurrency : Nat) : List R :=
  items.map fn

/-- The stage `summarizeSections`: summarize each list-valued section through the
pool, the two single-item sections directly, and synthesize the tag
cluster. -/
def summarizeSections (env : SummarizerEnv) (now : Int)
    (sections : DigestSections) : SummarizedDigest :=
  let recentlySaved := mapWithConcurrency sections.recentlySaved
    (toSummarizedBookmark env now) MAX_CONCURRENT
  let buriedTreasure := mapWithConcurrency sections.buriedTreasure
    (toSummarizedBookmark env now) MAX_CONCURRENT
  let thisMonthLastYear := mapWithConcurrency sections.thisMonthLastYear
    (toSummarizedBookmark env now) MAX_CONCURRENT
  let tagRoundup : Option TagRoundupFinal :=
    match sections.tagRoundup with
    | some tr =>
        some { tag := tr.tag
               bookmarks := mapWithConcurrency tr.bookmarks
                 (toSummarizedBookmark env now) MAX_CONCURRENT
               synthesis := synthesizeCluster env tr.tag tr.bookmarks }
    | none => none
  let randomPick := sections.randomPick.map (toSummarizedBookmark env now)
  let fromTheArchives := sections.fromTheArchives.map (toSummarizedBookmark env now)
  { recentlySaved, buriedTreasure, thisMonthLastYear, tagRoundup,
    randomPick, fromTheArchives, stats := sections.stats }

/-- Every summarized item of a digest, across all six sections. -/
def digestItems (d : SummarizedDigest) : List SummarizedBookmark :=
  d.recentlySaved ++ d.buriedTreasure ++ d.thisMonthLastYear ++
    (match d.tagRoundup with | some tr => tr.bookmarks | none => []) ++
    d.randomPick.toList ++ d.fromTheArchives.toList

/-! ## Helper lemmas: section selection -/

theorem mem_filterSufficient {b : Bookmark} {l : List Bookmark}
    (h : b ∈ filterSufficientContent l) : b ∈ l :=
  List.mem_of_mem_filter h

theorem mem_recentlySavedOf {p : RandParams} {now : Int} {u : List Bookmark}
    (hp : GoodParams p) {b : Bookmark} (h : b ∈ recentlySavedOf p now u) :
    b ∈ filterSufficientContent u ∧
      b.createdAt ≥ now - RECENTLY_SAVED_DAYS * 24 * 60 * 60 * 1000 := by
  unfold recentlySavedOf getRecentlySaved at h
  have h1 := List.mem_of_mem_take h
  have h2 := (hp.1 _).mem_iff.mp h1
  exact ⟨List.mem_of_mem_filter h2, by simpa using List.of_mem_filter h2⟩

theorem mem_buriedTreasureOf {p : RandParams} {now : Int} {u : List Bookmark}
    (hp : GoodParams p) {b : Bookmark} (h : b ∈ buriedTreasureOf p now u) :
    b ∈ buriedCandidatesOf p now u := by
  unfold buriedTreasureOf at h
  exact (hp.2.1 _).mem_iff.mp (List.mem_of_mem_take h)

theorem mem_buriedCandidatesOf {p : RandParams} {now : Int} {u : List Bookmark}
    {b : Bookmark} (h : b ∈ buriedCandidatesOf p now u) :
    b ∈ filterSufficientContent u ∧ b.id ∉ used1Of p now u ∧
      b.createdAt < now - BURIED_TREASURE_DAYS * 24 * 60 * 60 * 1000 := by
  unfold buriedCandidatesOf at h
  refine ⟨List.mem_of_mem_filter h, ?_⟩
  have := List.of_mem_filter h
  simpa using this

theorem mem_thisMonthLastYearOf {p : RandParams} {now : Int}
    {u ly ar : List Bookmark} (hp : GoodParams p) {b : Bookmark}
    (h : b ∈ thisMonthLastYearOf p now u ly ar) :
    (b ∈ filterSufficientContent ly ∨ b ∈ filterSufficientContent ar) ∧
      b.id ∉ used2Of p now u := by
  unfold thisMonthLastYearOf at h
  have h1 := (hp.2.2 _).mem_iff.mp (List.mem_of_mem_take h)
  unfold lastYearCandidatesOf at h1
  refine ⟨?_, by simpa using List.of_mem_filter h1⟩
  simpa using List.mem_of_mem_filter h1

/-- Membership somewhere in a tag map. -/
def MemTagMap (b : Bookmark) (m : List (String × List Bookmark)) : Prop :=
  ∃ e ∈ m, b ∈ e.2

theorem memTagMap_updateTagMap {b' b : Bookmark} {tag : String}
    {m : List (String × List Bookmark)}
    (h : MemTagMap b' (updateTagMap m tag b)) : MemTagMap b' m ∨ b' = b := by
  induction m with
  | nil =>
    obtain ⟨e, he, hb⟩ := h
    simp [updateTagMap] at he
    subst he
    simp at hb
    exact Or.inr hb
  | cons hd tl ih =>
    obtain ⟨t, bs⟩ := hd
    obtain ⟨e, he, hb⟩ := h
    by_cases ht : t = tag
    · subst ht
      simp [updateTagMap] at he
      rcases he with he | he
      · subst he
        simp at hb
        rcases hb with hb | hb
        · exact Or.inl ⟨(t, bs), by simp, hb⟩
        · exact Or.inr hb
      · exact Or.inl ⟨e, by simp [he], hb⟩
    · simp [updateTagMap, ht] at he
      rcases he with he | he
      · subst he
        exact Or.inl ⟨(t, bs), by simp, hb⟩
      · rcases ih ⟨e, he, hb⟩ with h' | h'
        · obtain ⟨e', he', hb'⟩ := h'
          exact Or.inl ⟨e', by simp [he'], hb'⟩
        · exact Or.inr h'

theorem memTagMap_foldTags {b' b : Bookmark} {tags : List Tag}
    {m : List (String × List Bookmark)}
    (h : MemTagMap b' (tags.foldl (fun m tg => updateTagMap m tg.name b) m)) :
    MemTagMap b' m ∨ b' = b := by
  induction tags generalizing m with
  | nil => exact Or.inl h
  | cons tg tl ih =>
    simp only [List.foldl_cons] at h
    rcases ih h with h' | h'
    · exact memTagMap_updateTagMap h'
    · exact Or.inr h'

theorem memTagMap_foldBookmarks {b' : Bookmark} {bs : List Bookmark}
    {m : List (String × List Bookmark)}
    (h : MemTagMap b'
      (bs.foldl (fun m b => b.tags.foldl (fun m tg => updateTagMap m tg.name b) m) m)) :
    MemTagMap b' m ∨ b' ∈ bs := by
  induction bs generalizing m with
  | nil => exact Or.inl h
  | cons hd tl ih =>
    simp only [List.foldl_cons] at h
    rcases ih h with h' | h'
    · rcases memTagMap_foldTags h' with h'' | h''
      · exact Or.inl h''
      · exact Or.inr (by simp [h''])
    · exact Or.inr (by simp [h'])

theorem memTagMap_build {b' : Bookmark} {bs : List Bookmark}
    (h : MemTagMap b' (buildTagFrequencyMap bs)) : b' ∈ bs := by
  unfold buildTagFrequencyMap at h
  rcases memTagMap_foldBookmarks h with h' | h'
  · obtain ⟨e, he, _⟩ := h'
    simp at he
  · exact h'

theorem findTopTag_some {idx : Nat} {m : List (String × List Bookmark)}
    {usedIds : List String} {tr : TagRoundupSec}
    (h : findTopTag idx m usedIds = some tr) :
    ∃ e ∈ m, tr = ⟨e.1, ((e.2.filter fun b => ¬ usedIds.contains b.id).take
      MAX_ITEMS_PER_SECTION : List Bookmark)⟩ := by
  simp only [findTopTag] at h
  split at h
  · exact absurd h (by simp)
  · injection h with h'
    have hget : tr ∈ List.filterMap (fun e =>
        let available := e.2.filter fun b => ¬ usedIds.contains b.id
        if available.length ≥ MIN_TAG_ITEMS then
          some (⟨e.1, available.take MAX_ITEMS_PER_SECTION⟩ : TagRoundupSec)
        else none) m := by
      rw [← h']
      exact List.get_mem _ _ _
    obtain ⟨e, he, hsome⟩ := List.mem_filterMap.mp hget
    refine ⟨e, he, ?_⟩
    simp only [] at hsome
    split at hsome
    · injection hsome with h''
      exact h''.symm
    · exact absurd hsome (by simp)

theorem mem_tagRoundupOf {p : RandParams} {now : Int} {u ly ar : List Bookmark}
    {tr : TagRoundupSec} (h : tagRoundupOf p now u ly ar = some tr)
    {b : Bookmark} (hb : b ∈ tr.bookmarks) :
    b ∈ filterSufficientContent u ∧ b.id ∉ used3Of p now u ly ar := by
  obtain ⟨e, he, htr⟩ := findTopTag_some h
  rw [htr] at hb
  simp only at hb
  have h1 := List.mem_of_mem_take hb
  constructor
  · exact memTagMap_build ⟨e, he, List.mem_of_mem_filter h1⟩
  · simpa using List.of_mem_filter h1

theorem pickRandom_some {l : List Bookmark} {idx : Nat} {b : Bookmark}
    (h : pickRandom l idx = some b) : b ∈ l := by
  unfold pickRandom at h
  split at h
  · exact absurd h (by simp)
  · injection h with h'
    rw [← h']
    apply List.get_mem

theorem randomPickOf_some {p : RandParams} {now : Int} {u ly ar : List Bookmark}
    {b : Bookmark} (h : randomPickOf p now u ly ar = some b) :
    b ∈ filterSufficientContent u ∧ b.id ∉ used4Of p now u ly ar := by
  have h1 := pickRandom_some h
  unfold remainingOf at h1
  exact ⟨List.mem_of_mem_filter h1, by simpa using List.of_mem_filter h1⟩

theorem fromTheArchivesOf_some {p : RandParams} {now : Int} {u ly ar : List Bookmark}
    {b : Bookmark} (h : fromTheArchivesOf p now u ly ar = some b) :
    b ∈ filterSufficientContent ar ∧ b.id ∉ used4Of p now u ly ar := by
  have h1 := pickRandom_some h
  unfold availableArchivedOf at h1
  exact ⟨List.mem_of_mem_filter h1, by simpa using List.of_mem_filter h1⟩

theorem disjointIds_eq_true_iff (a b : List String) :
    disjointIds a b = true ↔ ∀ x ∈ a, x ∉ b := by
  simp [disjointIds]

theorem bt_id_not_used1 {p : RandParams} {now : Int} {u : List Bookmark}
    (hp : GoodParams p) {b : Bookmark} (h : b ∈ buriedTreasureOf p now u) :
    b.id ∉ used1Of p now u :=
  (mem_buriedCandidatesOf (mem_buriedTreasureOf hp h)).2.1

theorem tmly_id_not_used2 {p : RandParams} {now : Int} {u ly ar : List Bookmark}
    (hp : GoodParams p) {b : Bookmark} (h : b ∈ thisMonthLastYearOf p now u ly ar) :
    b.id ∉ used2Of p now u :=
  (mem_thisMonthLastYearOf hp h).2

theorem tr_id_not_used3 {p : RandParams} {now : Int} {u ly ar : List Bookmark}
    {tr : TagRoundupSec} (h : tagRoundupOf p now u ly ar = some tr)
    {b : Bookmark} (hb : b ∈ tr.bookmarks) : b.id ∉ used3Of p now u ly ar :=
  (mem_tagRoundupOf h hb).2

theorem rp_id_not_used4 {p : RandParams} {now : Int} {u ly ar : List Bookmark}
    {b : Bookmark} (h : randomPickOf p now u ly ar = some b) :
    b.id ∉ used4Of p now u ly ar :=
  (randomPickOf_some h).2

theorem fta_id_not_used4 {p : RandParams} {now : Int} {u ly ar : List Bookmark}
    {b : Bookmark} (h : fromTheArchivesOf p now u ly ar = some b) :
    b.id ∉ used4Of p now u ly ar :=
  (fromTheArchivesOf_some h).2

theorem mem_used2_left {p : RandParams} {now : Int} {u : List Bookmark} {x : String}
    (h : x ∈ used1Of p now u) : x ∈ used2Of p now u := by
  unfold used2Of; exact List.mem_append_left _ h

theorem mem_used2_right {p : RandParams} {now : Int} {u : List Bookmark} {x : String}
    (h : x ∈ (buriedTreasureOf p now u).map (·.id)) : x ∈ used2Of p now u := by
  unfold used2Of; exact List.mem_append_right _ h

theorem mem_used3_left {p : RandParams} {now : Int} {u ly ar : List Bookmark} {x : String}
    (h : x ∈ used2Of p now u) : x ∈ used3Of p now u ly ar := by
  unfold used3Of; exact List.mem_append_left _ h

theorem mem_used3_right {p : RandParams} {now : Int} {u ly ar : List Bookmark} {x : String}
    (h : x ∈ (thisMonthLastYearOf p now u ly ar).map (·.id)) :
    x ∈ used3Of p now u ly ar := by
  unfold used3Of; exact List.mem_append_right _ h

theorem mem_used4_left {p : RandParams} {now : Int} {u ly ar : List Bookmark} {x : String}
    (h : x ∈ used3Of p now u ly ar) : x ∈ used4Of p now u ly ar := by
  unfold used4Of; exact List.mem_append_left _ h

theorem mem_used4_tr {p : RandParams} {now : Int} {u ly ar : List Bookmark} {x : String}
    {tr : TagRoundupSec} (htr : tagRoundupOf p now u ly ar = some tr)
    (h : x ∈ tr.bookmarks.map (·.id)) : x ∈ used4Of p now u ly ar := by
  unfold used4Of
  rw [htr]
  exact List.mem_append_right _ h

theorem pairwiseDisjoint6 (l1 l2 l3 l4 l5 l6 : List String)
    (h12 : ∀ x ∈ l1, x ∉ l2) (h13 : ∀ x ∈ l1, x ∉ l3) (h14 : ∀ x ∈ l1, x ∉ l4)
    (h15 : ∀ x ∈ l1, x ∉ l5) (h16 : ∀ x ∈ l1, x ∉ l6)
    (h23 : ∀ x ∈ l2, x ∉ l3) (h24 : ∀ x ∈ l2, x ∉ l4) (h25 : ∀ x ∈ l2, x ∉ l5)
    (h26 : ∀ x ∈ l2, x ∉ l6)
    (h34 : ∀ x ∈ l3, x ∉ l4) (h35 : ∀ x ∈ l3, x ∉ l5) (h36 : ∀ x ∈ l3, x ∉ l6)
    (h45 : ∀ x ∈ l4, x ∉ l5) (h46 : ∀ x ∈ l4, x ∉ l6)
    (h56 : ∀ x ∈ l5, x ∉ l6) :
    pairwiseDisjoint [l1, l2, l3, l4, l5, l6] = true := by
  simp [pairwiseDisjoint, disjointIds_eq_true_iff]
  exact ⟨⟨h12, h13, h14, h15, h16⟩, ⟨h23, h24, h25, h26⟩, ⟨h34, h35, h36⟩,
    ⟨h45, h46⟩, h56⟩

/-- C1 (amended): when the unread and archived inputs share no bookmark
identifier — as in the pipeline, which fetches them with `archived=false`
and `archived=true` respectively — the six sections of one `categorize`
run have pairwise disjoint id sets. -/
theorem categorize_sections_exclusive (p : RandParams) (now : Int)
    (bookmarks lastYearBookmarks archivedBookmarks : List Bookmark)
    (hp : GoodParams p)
    (hids : ∀ b ∈ bookmarks, ∀ a ∈ archivedBookmarks, b.id ≠ a.id) :
    sectionsDisjointB (categorize p now bookmarks lastYearBookmarks archivedBookmarks) = true := by
  show pairwiseDisjoint
    [(recentlySavedOf p now bookmarks).map (·.id),
     (buriedTreasureOf p now bookmarks).map (·.id),
     (thisMonthLastYearOf p now bookmarks lastYearBookmarks archivedBookmarks).map (·.id),
     tagIds (tagRoundupOf p now bookmarks lastYearBookmarks archivedBookmarks),
     optIds (randomPickOf p now bookmarks lastYearBookmarks archivedBookmarks),
     optIds (fromTheArchivesOf p now bookmarks lastYearBookmarks archivedBookmarks)] = true
  have memL1 : ∀ x, x ∈ (recentlySavedOf p now bookmarks).map (·.id) →
      x ∈ used1Of p now bookmarks := fun x hx => hx
  have memL2 : ∀ x, x ∈ (buriedTreasureOf p now bookmarks).map (·.id) →
      x ∈ used2Of p now bookmarks := fun x hx => mem_used2_right hx
  have memL3 : ∀ x, x ∈ (thisMonthLastYearOf p now bookmarks lastYearBookmarks
      archivedBookmarks).map (·.id) →
      x ∈ used3Of p now bookmarks lastYearBookmarks archivedBookmarks :=
    fun x hx => mem_used3_right hx
  have memL4 : ∀ x, x ∈ tagIds (tagRoundupOf p now bookmarks lastYearBookmarks
      archivedBookmarks) →
      x ∈ used4Of p now bookmarks lastYearBookmarks archivedBookmarks := by
    intro x hx
    cases htr : tagRoundupOf p now bookmarks lastYearBookmarks archivedBookmarks with
    | none => rw [htr] at hx; simp [tagIds] at hx
    | some tr => rw [htr] at hx; exact mem_used4_tr htr hx
  -- an id of a later section never lies in an earlier used set
  have notL2 : ∀ x ∈ (buriedTreasureOf p now bookmarks).map (·.id),
      x ∉ used1Of p now bookmarks := by
    intro x hx
    obtain ⟨b, hb, rfl⟩ := List.mem_map.mp hx
    exact bt_id_not_used1 hp hb
  have notL3 : ∀ x ∈ (thisMonthLastYearOf p now bookmarks lastYearBookmarks
      archivedBookmarks).map (·.id), x ∉ used2Of p now bookmarks := by
    intro x hx
    obtain ⟨b, hb, rfl⟩ := List.mem_map.mp hx
    exact tmly_id_not_used2 hp hb
  have notL4 : ∀ x ∈ tagIds (tagRoundupOf p now bookmarks lastYearBookmarks
      archivedBookmarks),
      x ∉ used3Of p now bookmarks lastYearBookmarks archivedBookmarks := by
    intro x hx
    cases htr : tagRoundupOf p now bookmarks lastYearBookmarks archivedBookmarks with
    | none => rw [htr] at hx; simp [tagIds] at hx
    | some tr =>
      rw [htr] at hx
      simp only [tagIds] at hx
      obtain ⟨b, hb, rfl⟩ := List.mem_map.mp hx
      exact tr_id_not_used3 htr hb
  have notL5 : ∀ x ∈ optIds (randomPickOf p now bookmarks lastYearBookmarks
      archivedBookmarks),
      x ∉ used4Of p now bookmarks lastYearBookmarks archivedBookmarks := by
    intro x hx
    cases hrp : randomPickOf p now bookmarks lastYearBookmarks archivedBookmarks with
    | none => rw [hrp] at hx; simp [optIds] at hx
    | some b =>
      rw [hrp] at hx
      simp [optIds] at hx
      subst hx
      exact rp_id_not_used4 hrp
  have notL6 : ∀ x ∈ optIds (fromTheArchivesOf p now bookmarks lastYearBookmarks
      archivedBookmarks),
      x ∉ used4Of p now bookmarks lastYearBookmarks archivedBookmarks := by
    intro x hx
    cases hfa : fromTheArchivesOf p now bookmarks lastYearBookmarks archivedBookmarks with
    | none => rw [hfa] at hx; simp [optIds] at hx
    | some b =>
      rw [hfa] at hx
      simp [optIds] at hx
      subst hx
      exact fta_id_not_used4 hfa
  apply pairwiseDisjoint6
  -- l1 against the later sections
  · exact fun x hx hx' => notL2 _ hx' (memL1 _ hx)
  · exact fun x hx hx' => notL3 _ hx' (mem_used2_left (memL1 _ hx))
  · exact fun x hx hx' => notL4 _ hx' (mem_used3_left (mem_used2_left (memL1 _ hx)))
  · exact fun x hx hx' => notL5 _ hx'
      (mem_used4_left (mem_used3_left (mem_used2_left (memL1 _ hx))))
  · exact fun x hx hx' => notL6 _ hx'
      (mem_used4_left (mem_used3_left (mem_used2_left (memL1 _ hx))))
  -- l2 against the later sections
  · exact fun x hx hx' => notL3 _ hx' (memL2 _ hx)
  · exact fun x hx hx' => notL4 _ hx' (mem_used3_left (memL2 _ hx))
  · exact fun x hx hx' => notL5 _ hx' (mem_used4_left (mem_used3_left (memL2 _ hx)))
  · exact fun x hx hx' => notL6 _ hx' (mem_used4_left (mem_used3_left (memL2 _ hx)))
  -- l3 against the later sections
  · exact fun x hx hx' => notL4 _ hx' (memL3 _ hx)
  · exact fun x hx hx' => notL5 _ hx' (mem_used4_left (memL3 _ hx))
  · exact fun x hx hx' => notL6 _ hx' (mem_used4_left (memL3 _ hx))
  -- l4 against the later sections
  · exact fun x hx hx' => notL5 _ hx' (memL4 _ hx)
  · exact fun x hx hx' => notL6 _ hx' (memL4 _ hx)
  -- random pick versus archive pick: the inputs are id-disjoint
  · intro x hx hx'
    cases hrp : randomPickOf p now bookmarks lastYearBookmarks archivedBookmarks with
    | none => rw [hrp] at hx; simp [optIds] at hx
    | some b =>
      rw [hrp] at hx
      simp [optIds] at hx
      cases hfa : fromTheArchivesOf p now bookmarks lastYearBookmarks archivedBookmarks with
      | none => rw [hfa] at hx'; simp [optIds] at hx'
      | some a =>
        rw [hfa] at hx'
        simp [optIds] at hx'
        have hb := mem_filterSufficient (randomPickOf_some hrp).1
        have ha := mem_filterSufficient (fromTheArchivesOf_some hfa).1
        exact hids b hb a ha (by rw [← hx, ← hx'])

/-! ## Concrete inputs for counterexamples and witnesses -/

/-- A 100-character summary, enough to pass the content-sufficiency filter. -/
def longSummary : String := String.mk (List.replicate 100 'x')

def exContent : BookmarkContent := { htmlContent := none, text := none, contentAssetId := none }

/-- A bookmark with the given id and creation time whose summary passes the
filter. -/
def exB (i : String) (t : Int) : Bookmark :=
  { id := i, url := "", title := none, summary := some longSummary,
    createdAt := t, archived := false, favourited := false, tags := [],
    content := exContent }

/-- Milliseconds of `n` days. -/
def day (n : Int) : Int := n * 86400000

/-- Degenerate random choices: identity shuffles, index 0 everywhere. -/
def idParams : RandParams :=
  { shuffleRecent := id, shuffleBuried := id, shuffleLastYear := id,
    tagIdx := 0, pickIdx := 0, archiveIdx := 0 }

theorem idParams_good : GoodParams idParams :=
  ⟨fun l => List.Perm.refl l, fun l => List.Perm.refl l, fun l => List.Perm.refl l⟩

def nowEx : Int := day 100

/-- Four recent unread bookmarks; with identity shuffles, Recently Saved
takes the first three and the fourth survives to Random Pick. -/
def uEx : List Bookmark :=
  [exB "r1" (day 90), exB "r2" (day 90), exB "r3" (day 90), exB "r4" (day 90)]

/-- Three decoys that fill This Month Last Year. -/
def lyEx : List Bookmark := [exB "d1" (day 1), exB "d2" (day 1), exB "d3" (day 1)]

/-- One archived bookmark sharing the id `r4` with the unread input. -/
def arEx : List Bookmark := [exB "r4" (day 1)]

/-- C1 (counterexample): with an id present in both the unread and archived
inputs, Random Pick and From the Archives both select it — `randomPick` is
never added to the used-id set, so the sections are not pairwise disjoint. -/
theorem categorize_sections_exclusive_cex :
    sectionsDisjointB (categorize idParams nowEx uEx lyEx arEx) = false := by
  decide

/-- An archived input with a fresh id, satisfying the amended hypothesis. -/
def arIdDisjointEx : List Bookmark := [exB "a1" (day 1)]

theorem categorize_sections_exclusive_witness :
    GoodParams idParams ∧
      (∀ b ∈ uEx, ∀ a ∈ arIdDisjointEx, b.id ≠ a.id) ∧
      sectionsDisjointB (categorize idParams nowEx uEx lyEx arIdDisjointEx) = true :=
  ⟨idParams_good, by decide,
    categorize_sections_exclusive idParams nowEx uEx lyEx arIdDisjointEx
      idParams_good (by decide)⟩

/-- C10: every bookmark in any output section of `categorize` is an element
of one of the three input lists, returned as-is (the sections hold the very
input values, never rebuilt ones). -/
theorem categorize_no_fabrication (p : RandParams) (now : Int)
    (bookmarks lastYearBookmarks archivedBookmarks : List Bookmark)
    (hp : GoodParams p) :
    (∀ b ∈ (categorize p now bookmarks lastYearBookmarks archivedBookmarks).recentlySaved,
        b ∈ bookmarks) ∧
    (∀ b ∈ (categorize p now bookmarks lastYearBookmarks archivedBookmarks).buriedTreasure,
        b ∈ bookmarks) ∧
    (∀ b ∈ (categorize p now bookmarks lastYearBookmarks archivedBookmarks).thisMonthLastYear,
        b ∈ lastYearBookmarks ∨ b ∈ archivedBookmarks) ∧
    (∀ tr, (categorize p now bookmarks lastYearBookmarks archivedBookmarks).tagRoundup =
        some tr → ∀ b ∈ tr.bookmarks, b ∈ bookmarks) ∧
    (∀ b, (categorize p now bookmarks lastYearBookmarks archivedBookmarks).randomPick =
        some b → b ∈ bookmarks) ∧
    (∀ b, (categorize p now bookmarks lastYearBookmarks archivedBookmarks).fromTheArchives =
        some b → b ∈ archivedBookmarks) := by
  refine ⟨?_, ?_, ?_, ?_, ?_, ?_⟩
  · intro b hb
    exact mem_filterSufficient (mem_recentlySavedOf hp hb).1
  · intro b hb
    exact mem_filterSufficient (mem_buriedCandidatesOf (mem_buriedTreasureOf hp hb)).1
  · intro b hb
    rcases (mem_thisMonthLastYearOf hp hb).1 with h | h
    · exact Or.inl (mem_filterSufficient h)
    · exact Or.inr (mem_filterSufficient h)
  · intro tr htr b hb
    exact mem_filterSufficient (mem_tagRoundupOf htr hb).1
  · intro b hb
    exact mem_filterSufficient (randomPickOf_some hb).1
  · intro b hb
    exact mem_filterSufficient (fromTheArchivesOf_some hb).1

theorem categorize_no_fabrication_witness :
    GoodParams idParams ∧
      (∀ b ∈ (categorize idParams nowEx uEx lyEx arEx).recentlySaved, b ∈ uEx) :=
  ⟨idParams_good,
    (categorize_no_fabrication idParams nowEx uEx lyEx arEx idParams_good).1⟩

/-! Concrete data for the Buried Treasure claim: four old bookmarks with
ascending creation times. -/

def uOld : List Bookmark :=
  [exB "o1" (day 1), exB "o2" (day 2), exB "o3" (day 3), exB "o4" (day 4)]

/-- Identity choices except that the Buried Treasure shuffle reverses its
pool — one of the permutations `.sort(() => Math.random() - 0.5)` can
produce. -/
def revParams : RandParams :=
  { idParams with shuffleBuried := List.reverse }

theorem revParams_good : GoodParams revParams :=
  ⟨fun l => List.Perm.refl l, fun l => List.reverse_perm l, fun l => List.Perm.refl l⟩

/-- C6: Buried Treasure is the 3-prefix of a shuffle of the pool of still
unused bookmarks created more than 30 days ago — a random sample of 3 drawn
from the whole pool (all of it when fewer than 3 qualify) — and it is not
computed as the 3 oldest of the pool: a reversing shuffle selects the three
newest. -/
theorem buriedTreasure_random_sample :
    (∀ (p : RandParams) (now : Int) (u ly ar : List Bookmark), GoodParams p →
      (categorize p now u ly ar).buriedTreasure =
        (p.shuffleBuried (buriedCandidatesOf p now u)).take BURIED_TREASURE_COUNT ∧
      (categorize p now u ly ar).buriedTreasure.length =
        min BURIED_TREASURE_COUNT (buriedCandidatesOf p now u).length ∧
      (∀ b ∈ (categorize p now u ly ar).buriedTreasure, b ∈ buriedCandidatesOf p now u)) ∧
    (categorize revParams nowEx uOld [] []).buriedTreasure ≠
      buriedTreasureOldestFirst (buriedCandidatesOf revParams nowEx uOld) := by
  constructor
  · intro p now u ly ar hp
    refine ⟨rfl, ?_, ?_⟩
    · show (buriedTreasureOf p now u).length = _
      rw [buriedTreasureOf, List.length_take, (hp.2.1 _).length_eq]
    · intro b hb
      exact mem_buriedTreasureOf hp hb
  · decide

theorem buriedTreasure_random_sample_witness :
    GoodParams idParams ∧
      ((categorize idParams nowEx uOld [] []).buriedTreasure =
        (idParams.shuffleBuried (buriedCandidatesOf idParams nowEx uOld)).take
          BURIED_TREASURE_COUNT ∧
      (categorize idParams nowEx uOld [] []).buriedTreasure.length =
        min BURIED_TREASURE_COUNT (buriedCandidatesOf idParams nowEx uOld).length ∧
      (∀ b ∈ (categorize idParams nowEx uOld [] []).buriedTreasure,
        b ∈ buriedCandidatesOf idParams nowEx uOld)) :=
  ⟨idParams_good,
    buriedTreasure_random_sample.1 idParams nowEx uOld [] [] idParams_good⟩

/-! ## Retrieval-client theorems -/

/-- A server that always answers 400. -/
def resp400 : Nat → FetchOutcome := fun _ => .response 400 none "Bad Request"

set_option maxRecDepth 4000 in
/-- C2 (counterexample): a client error is not fatal on the spot — the
thrown "API error 400" is caught by the retry loop's generic handler, so
the request is fetched 3 times with exponential backoff before the
descriptive error finally propagates. -/
theorem apiRequest_client_error_cex :
    (apiRequest resp400).fetches = 3 ∧
      (apiRequest resp400).sleeps = [1000, 2000] ∧
      (apiRequest resp400).outcome = Except.error "API error 400: Bad Request" :=
  ⟨rfl, rfl, rfl⟩

/-- C2 (amended): a 4xx non-429 response raises a descriptive
`API error <status>: <body>` message, but it is retried with exponential
backoff like any transient failure; after three such responses the call
fails with the last descriptive error, having made exactly 3 fetches. -/
theorem apiRequest_client_error_amended (responses : Nat → FetchOutcome)
    (s0 s1 s2 : Nat) (r0 r1 r2 : Option Nat) (b0 b1 b2 : String)
    (h0 : responses 0 = .response s0 r0 b0) (hl0 : 400 ≤ s0) (hu0 : s0 < 500) (hn0 : s0 ≠ 429)
    (h1 : responses 1 = .response s1 r1 b1) (hl1 : 400 ≤ s1) (hu1 : s1 < 500) (hn1 : s1 ≠ 429)
    (h2 : responses 2 = .response s2 r2 b2) (hl2 : 400 ≤ s2) (hu2 : s2 < 500) (hn2 : s2 ≠ 429) :
    (apiRequest responses).outcome =
        Except.error ("API error " ++ toString s2 ++ ": " ++ b2.take 200) ∧
      (apiRequest responses).fetches = 3 ∧
      (apiRequest responses).sleeps = [1000, 2000] := by
  have e0 : ¬ (200 ≤ s0 ∧ s0 < 300) := by omega
  have e1 : ¬ (200 ≤ s1 ∧ s1 < 300) := by omega
  have e2 : ¬ (200 ≤ s2 ∧ s2 < 300) := by omega
  have f0 : ¬ (s0 ≥ 500) := by omega
  have f1 : ¬ (s1 ≥ 500) := by omega
  have f2 : ¬ (s2 ≥ 500) := by omega
  refine ⟨?_, ?_, ?_⟩ <;>
    simp [apiRequest, apiRequestGo, MAX_RETRIES, RETRY_DELAY_MS,
      h0, h1, h2, hn0, hn1, hn2, e0, e1, e2, f0, f1, f2]

theorem apiRequest_client_error_amended_witness :
    (apiRequest resp400).outcome =
        Except.error ("API error " ++ toString 400 ++ ": " ++ String.take "Bad Request" 200) ∧
      (apiRequest resp400).fetches = 3 ∧
      (apiRequest resp400).sleeps = [1000, 2000] :=
  apiRequest_client_error_amended resp400 400 400 400 none none none
    "Bad Request" "Bad Request" "Bad Request"
    rfl (by decide) (by decide) (by decide)
    rfl (by decide) (by decide) (by decide)
    rfl (by decide) (by decide) (by decide)

/-- A server that answers 429 with `Retry-After: 2` three times, then would
succeed. -/
def resp429 : Nat → FetchOutcome := fun i =>
  if i < 3 then .response 429 (some 2) "rate limited" else .response 200 none "\x7b\x7d"

set_option maxRecDepth 4000 in
/-- C5 (counterexample): the `continue` in the 429 branch still runs the
loop's `attempt++`, so three rate-limited responses exhaust the whole
3-attempt budget: the fourth fetch — which would succeed — is never made
and the call fails with the fallback "Unknown error" (no error was ever
caught). -/
theorem apiRequest_rate_limit_cex :
    (apiRequest resp429).outcome = Except.error "Unknown error during API request" ∧
      (apiRequest resp429).fetches = 3 ∧
      (apiRequest resp429).sleeps = [2000, 2000, 2000] :=
  ⟨rfl, rfl, rfl⟩

/-- C5 (amended): a 429 is waited out — `Retry-After × 1000` ms when the
header is present, else a fixed 5000 ms — and the loop terminates, but each
429 consumes one of the same 3 attempts budgeted for every error class:
three consecutive 429s exhaust the budget and the call fails with
"Unknown error during API request" after exactly 3 fetches. -/
theorem apiRequest_rate_limit_amended (responses : Nat → FetchOutcome)
    (r0 r1 r2 : Option Nat) (b0 b1 b2 : String)
    (h0 : responses 0 = .response 429 r0 b0)
    (h1 : responses 1 = .response 429 r1 b1)
    (h2 : responses 2 = .response 429 r2 b2) :
    (apiRequest responses).outcome = Except.error "Unknown error during API request" ∧
      (apiRequest responses).fetches = 3 ∧
      (apiRequest responses).sleeps = [rateLimitDelay r0, rateLimitDelay r1, rateLimitDelay r2] := by
  refine ⟨?_, ?_, ?_⟩ <;>
    simp [apiRequest, apiRequestGo, MAX_RETRIES, h0, h1, h2]

theorem apiRequest_rate_limit_amended_witness :
    (apiRequest resp429).outcome = Except.error "Unknown error during API request" ∧
      (apiRequest resp429).fetches = 3 ∧
      (apiRequest resp429).sleeps =
        [rateLimitDelay (some 2), rateLimitDelay (some 2), rateLimitDelay (some 2)] :=
  apiRequest_rate_limit_amended resp429 (some 2) (some 2) (some 2)
    "rate limited" "rate limited" "rate limited" rfl rfl rfl

/-! ## Summarization-fallback theorems -/

theorem strOrElse_ne_empty (a : Option String) (d : String) (hd : d ≠ "") :
    strOrElse a d ≠ "" := by
  cases a with
  | none => simpa [strOrElse] using hd
  | some s =>
    by_cases hs : s = "" <;> simp [strOrElse, hs, hd]

theorem fallbackSummary_ne_empty (b : Bookmark) : fallbackSummary b ≠ "" :=
  strOrElse_ne_empty _ _ (strOrElse_ne_empty _ _ (by decide))

/-- When every provider call fails, `summarizeArticle` returns the local
fallback. -/
theorem summarizeArticle_fallback (env : SummarizerEnv)
    (hfail : ∀ p n, ∃ e, env.complete p n = Except.error e) (b : Bookmark) :
    summarizeArticle env b = { summary := fallbackSummary b } := by
  simp only [summarizeArticle]
  obtain ⟨e, he⟩ := hfail (replaceFirst
    (replaceFirst env.promptSingle "\x7b\x7bTITLE\x7d\x7d" (strOrElse b.title "Untitled"))
    "\x7b\x7bCONTENT\x7d\x7d"
    (truncateContent (strOrElseS (contentTextOf b)
      (strOrElse b.summary (strOrElse b.title ""))))) 300
  rw [he]
  rfl

/-- The bookmarks that flow into the summarization stage, sectionwise. -/
def sectionItems (s : DigestSections) : List Bookmark :=
  s.recentlySaved ++ s.buriedTreasure ++ s.thisMonthLastYear ++
    (match s.tagRoundup with | some tr => tr.bookmarks | none => []) ++
    s.randomPick.toList ++ s.fromTheArchives.toList

theorem digestItems_summarizeSections (env : SummarizerEnv) (now : Int)
    (s : DigestSections) :
    digestItems (summarizeSections env now s) =
      (sectionItems s).map (toSummarizedBookmark env now) := by
  cases htr : s.tagRoundup <;> cases hrp : s.randomPick <;>
    cases hfa : s.fromTheArchives <;>
      simp [digestItems, summarizeSections, sectionItems, mapWithConcurrency,
        htr, hrp, hfa]

/-- C4: under 100% provider failure the digest still materializes and every
summarized item's `aiSummary` is exactly the fallback chain — pre-existing
summary, else title, else the generic placeholder — and in particular
non-empty. -/
theorem summarizeSections_fallback (env : SummarizerEnv) (now : Int)
    (sections : DigestSections)
    (hfail : ∀ p n, ∃ e, env.complete p n = Except.error e) :
    ∀ sb ∈ digestItems (summarizeSections env now sections),
      sb.aiSummary = fallbackSummary sb.toBookmark ∧ sb.aiSummary ≠ "" := by
  intro sb hsb
  rw [digestItems_summarizeSections] at hsb
  obtain ⟨b, _, rfl⟩ := List.mem_map.mp hsb
  have key : (toSummarizedBookmark env now b).aiSummary = fallbackSummary b := by
    show (summarizeArticle env b).summary = _
    rw [summarizeArticle_fallback env hfail b]
  have htb : (toSummarizedBookmark env now b).toBookmark = b := rfl
  rw [htb, key]
  exact ⟨rfl, fallbackSummary_ne_empty b⟩

/-- A text-generation stub that always fails, a parser that never accepts,
and no re-fetched content. -/
def envFail : SummarizerEnv :=
  { complete := fun _ _ => Except.error "provider unavailable"
    parseArticleJson := fun _ => Except.error "not json"
    parseClusterJson := fun _ => Except.error "not json"
    fetchContent := fun _ => none
    promptSingle := "Summarize: \x7b\x7bTITLE\x7d\x7d\n\x7b\x7bCONTENT\x7d\x7d"
    promptCluster := "Synthesize \x7b\x7bCOUNT\x7d\x7d articles about \x7b\x7bTAG\x7d\x7d:\n\x7b\x7bARTICLES\x7d\x7d" }

def secEx : DigestSections := categorize idParams nowEx uEx lyEx arIdDisjointEx

theorem summarizeSections_fallback_witness :
    (∀ p n, ∃ e, envFail.complete p n = Except.error e) ∧
      ∀ sb ∈ digestItems (summarizeSections envFail nowEx secEx),
        sb.aiSummary = fallbackSummary sb.toBookmark ∧ sb.aiSummary ≠ "" :=
  ⟨fun _ _ => ⟨"provider unavailable", rfl⟩,
    summarizeSections_fallback envFail nowEx secEx
      (fun _ _ => ⟨"provider unavailable", rfl⟩)⟩

/-! ## Read-time theorems -/

theorem jsTruthyStr_some_ne {a : Option String} {s : String}
    (h : jsTruthyStr a = some s) : s ≠ "" := by
  cases a with
  | none => simp [jsTruthyStr] at h
  | some t =>
    by_cases ht : t = ""
    · simp [jsTruthyStr, ht] at h
    · simp [jsTruthyStr, ht] at h
      subst h
      exact ht

/-- C7 (amended): the read time attached by the summarization stage is `0`
— the hide-it signal — exactly when no content is available, and otherwise
it is `ceil(wordCount / 238)` over the markup-stripped, whitespace-split
content, clamped into `[1, 90]`. -/
theorem toSummarizedBookmark_readTime (env : SummarizerEnv) (now : Int) (b : Bookmark) :
    (jsTruthyStr (rawContentOf env b) = none →
      (toSummarizedBookmark env now b).readTime = 0) ∧
    (∀ s, jsTruthyStr (rawContentOf env b) = some s →
      (toSummarizedBookmark env now b).readTime =
          max 1 (min ((wordCountOf (stripTags s.data) + 237) / 238) 90) ∧
        1 ≤ (toSummarizedBookmark env now b).readTime ∧
        (toSummarizedBookmark env now b).readTime ≤ 90) := by
  have hrt : (toSummarizedBookmark env now b).readTime =
      match jsTruthyStr (rawContentOf env b) with
      | some s => estimateReadTime (some s)
      | none => 0 := rfl
  constructor
  · intro h
    rw [hrt, h]
  · intro s hs
    have hne := jsTruthyStr_some_ne hs
    have hval : (toSummarizedBookmark env now b).readTime =
        max 1 (min ((wordCountOf (stripTags s.data) + 237) / 238) 90) := by
      rw [hrt, hs]
      show estimateReadTime (some s) = _
      simp only [estimateReadTime]
      rw [if_neg hne]
    refine ⟨hval, ?_, ?_⟩ <;> rw [hval] <;> omega

/-- C7 (counterexample): a bookmark with a long summary but no content
passes the sufficiency filter, yet its summarized form carries
`readTime = 0`, which is not a positive integer in `[1, 90]`. -/
theorem toSummarizedBookmark_readTime_cex :
    (toSummarizedBookmark envFail nowEx (exB "n1" (day 1))).readTime = 0 ∧
      (exB "n1" (day 1)) ∈ filterSufficientContent [exB "n1" (day 1)] := by
  constructor
  · rfl
  · decide

/-- A bookmark whose crawled HTML is present. -/
def bWithContent : Bookmark :=
  { exB "c1" (day 1) with
    content := { htmlContent := some "<p>hello world</p>", text := none,
                 contentAssetId := none } }

theorem toSummarizedBookmark_readTime_witness :
    jsTruthyStr (rawContentOf envFail bWithContent) = some "<p>hello world</p>" ∧
      ((toSummarizedBookmark envFail nowEx bWithContent).readTime =
          max 1 (min ((wordCountOf (stripTags ("<p>hello world</p>" : String).data) + 237) / 238) 90) ∧
        1 ≤ (toSummarizedBookmark envFail nowEx bWithContent).readTime ∧
        (toSummarizedBookmark envFail nowEx bWithContent).readTime ≤ 90) :=
  ⟨rfl, (toSummarizedBookmark_readTime envFail nowEx bWithContent).2
    "<p>hello world</p>" rfl⟩

/-! ## Priority-score theorems -/

theorem contentTextOf_setTags (b : Bookmark) (ts : List Tag) :
    contentTextOf { b with tags := ts } = contentTextOf b := rfl

theorem contentTextOf_setCreatedAt (b : Bookmark) (t : Int) :
    contentTextOf { b with createdAt := t } = contentTextOf b := rfl

theorem hasPriorityTag_setCreatedAt (pts : List String) (b : Bookmark) (t : Int) :
    hasPriorityTag pts { b with createdAt := t } = hasPriorityTag pts b := rfl

/-- The score ignores everything about the tags except whether one matches. -/
theorem score_tags_congr (pts : List String) (b : Bookmark) (ts : List Tag) (now : Int)
    (h : hasPriorityTag pts { b with tags := ts } = hasPriorityTag pts b) :
    calculatePriorityScore pts { b with tags := ts } now =
      calculatePriorityScore pts b now := by
  simp only [calculatePriorityScore, contentTextOf_setTags]
  rw [h]

/-- C8 (amended): the score is non-decreasing in the item's age (earlier
`createdAt`, same everything else, never decreases it), and adding a tag
whose lower-cased name is on the configured priority list to an item none
of whose tags already match raises the score by exactly the fixed +20. -/
theorem calculatePriorityScore_monotone_bonus (pts : List String) (b : Bookmark)
    (now t1 t2 : Int) (tg : Tag) :
    (t1 ≤ now → t2 ≤ t1 →
      calculatePriorityScore pts { b with createdAt := t1 } now ≤
        calculatePriorityScore pts { b with createdAt := t2 } now) ∧
    (hasPriorityTag pts b = false → pts.contains (jsToLower tg.name) = true →
      calculatePriorityScore pts { b with tags := tg :: b.tags } now =
        calculatePriorityScore pts b now + 20) := by
  constructor
  · intro h1 h2
    simp only [calculatePriorityScore, contentTextOf_setCreatedAt,
      hasPriorityTag_setCreatedAt]
    have ha1 : (0 : ℝ) ≤ ((now - t1 : Int) : ℝ) := by
      exact_mod_cast Int.sub_nonneg.mpr h1
    have hle : ((now - t1 : Int) : ℝ) ≤ ((now - t2 : Int) : ℝ) := by
      exact_mod_cast (by omega : (now - t1 : Int) ≤ now - t2)
    have hpos : (0 : ℝ) < 1000 * 60 * 60 * 24 := by norm_num
    have hdiv : ((now - t1 : Int) : ℝ) / (1000 * 60 * 60 * 24) ≤
        ((now - t2 : Int) : ℝ) / (1000 * 60 * 60 * 24) := by gcongr
    have hdiv0 : (0 : ℝ) ≤ ((now - t1 : Int) : ℝ) / (1000 * 60 * 60 * 24) :=
      div_nonneg ha1 hpos.le
    have hlog : Real.log (((now - t1 : Int) : ℝ) / (1000 * 60 * 60 * 24) + 1) ≤
        Real.log (((now - t2 : Int) : ℝ) / (1000 * 60 * 60 * 24) + 1) := by
      apply Real.log_le_log (by linarith)
      linarith
    linarith [hlog]
  · intro hno hnew
    have htag : hasPriorityTag pts { b with tags := tg :: b.tags } = true := by
      simp only [hasPriorityTag, List.any_eq_true]
      refine ⟨jsToLower tg.name, by simpa using hnew, by simp⟩
    simp only [calculatePriorityScore, contentTextOf_setTags]
    rw [htag, hno]
    simp
    ring

def ptsEx : List String := ["work"]

/-- An unread item already carrying one matching priority tag. -/
def bTagged : Bookmark :=
  { exB "s1" (day 1) with tags := [{ id := "t1", name := "Work" }] }

/-- C8 (counterexample): adding a second matching tag to an item that
already has one leaves the score unchanged — the +20 boost fires at most
once — so the claimed strict +20 increase fails. -/
theorem calculatePriorityScore_tag_bonus_cex :
    calculatePriorityScore ptsEx
        { bTagged with tags := { id := "t2", name := "WORK" } :: bTagged.tags } nowEx =
      calculatePriorityScore ptsEx bTagged nowEx ∧
    calculatePriorityScore ptsEx
        { bTagged with tags := { id := "t2", name := "WORK" } :: bTagged.tags } nowEx ≠
      calculatePriorityScore ptsEx bTagged nowEx + 20 := by
  have heq : calculatePriorityScore ptsEx
      { bTagged with tags := { id := "t2", name := "WORK" } :: bTagged.tags } nowEx =
      calculatePriorityScore ptsEx bTagged nowEx :=
    score_tags_congr ptsEx bTagged _ nowEx (by decide)
  refine ⟨heq, ?_⟩
  rw [heq]
  intro hcontra
  have : (0 : ℝ) = 20 := by linarith
  norm_num at this

theorem calculatePriorityScore_monotone_bonus_witness :
    (day 50 ≤ nowEx ∧ day 1 ≤ day 50 ∧
      hasPriorityTag ptsEx (exB "s1" (day 1)) = false ∧
      ptsEx.contains (jsToLower (Tag.mk "t2" "Work").name) = true) ∧
    (calculatePriorityScore ptsEx { exB "s1" (day 1) with createdAt := day 50 } nowEx ≤
        calculatePriorityScore ptsEx { exB "s1" (day 1) with createdAt := day 1 } nowEx) ∧
    (calculatePriorityScore ptsEx
        { exB "s1" (day 1) with tags := Tag.mk "t2" "Work" :: (exB "s1" (day 1)).tags } nowEx =
      calculatePriorityScore ptsEx (exB "s1" (day 1)) nowEx + 20) :=
  ⟨⟨by decide, by decide, by decide, by decide⟩,
    (calculatePriorityScore_monotone_bonus ptsEx (exB "s1" (day 1)) nowEx
      (day 50) (day 1) (Tag.mk "t2" "Work")).1 (by decide) (by decide),
    (calculatePriorityScore_monotone_bonus ptsEx (exB "s1" (day 1)) nowEx
      (day 50) (day 1) (Tag.mk "t2" "Work")).2 (by decide) (by decide)⟩

/-! ## Worker-pool helper lemmas -/

theorem get?_set_self {α : Type} (l : List α) (n : Nat) (a : α) (h : n < l.length) :
    (l.set n a).get? n = some a := by
  simp [List.get?_eq_getElem?, List.getElem?_set_eq_of_lt, h]

theorem get?_set_ne {α : Type} (l : List α) (m n : Nat) (a : α) (h : m ≠ n) :
    (l.set m a).get? n = l.get? n := by
  simp [List.get?_eq_getElem?, List.getElem?_set_ne, h]

theorem get?_lt_of_some {α : Type} {l : List α} {n : Nat} {a : α}
    (h : l.get? n = some a) : n < l.length :=
  List.get?_eq_some.mp h |>.1

theorem mem_enumEntries {T : Type} {p : Nat × T} {n : Nat} {l : List T}
    (h : p ∈ enumEntries n l) : ∃ j, ∃ hj : j < l.length, p.1 = n + j ∧ l.get ⟨j, hj⟩ = p.2 := by
  induction l generalizing n with
  | nil => simp [enumEntries] at h
  | cons x xs ih =>
    simp only [enumEntries, List.mem_cons] at h
    rcases h with h | h
    · exact ⟨0, by simp, by simp [h], by simp [h]⟩
    · obtain ⟨j, hj, h1, h2⟩ := ih (n := n + 1) h
      exact ⟨j + 1, by simpa using hj, by omega, by simpa using h2⟩

theorem enumEntries_mem {T : Type} {l : List T} {j : Nat} (hj : j < l.length) (n : Nat) :
    (n + j, l.get ⟨j, hj⟩) ∈ enumEntries n l := by
  induction l generalizing n j with
  | nil => simp at hj
  | cons x xs ih =>
    cases j with
    | zero => simp [enumEntries]
    | succ j' =>
      simp only [enumEntries, List.mem_cons]
      right
      have heq : n + (j' + 1) = (n + 1) + j' := by omega
      rw [heq]
      simpa using ih (j := j') (by simpa using hj) (n + 1)

/-- The run invariant of the pool: result slots sized to the input, queue
entries and busy workers holding genuine `(index, item)` pairs, every
written slot holding `fn` of its item, every unwritten slot still queued or
in flight, a retired worker implying an empty queue, and a constant worker
count. -/
structure PoolInv {T R : Type} (items : List T) (f : T → R) (W : Nat)
    (s : PoolState T R) : Prop where
  lenRes : s.results.length = items.length
  lenW : s.workers.length = W
  queueOK : ∀ e ∈ s.queue, ∃ hj : e.1 < items.length, items.get ⟨e.1, hj⟩ = e.2
  busyOK : ∀ w i x, s.workers.get? w = some (.busy i x) →
    ∃ hi : i < items.length, items.get ⟨i, hi⟩ = x
  doneOK : ∀ i r, s.results.get? i = some (some r) →
    ∃ hi : i < items.length, r = f (items.get ⟨i, hi⟩)
  pending : ∀ i, s.results.get? i = some none →
    (∃ x, (i, x) ∈ s.queue) ∨ (∃ w x, s.workers.get? w = some (.busy i x))
  finOK : (∃ w, s.workers.get? w = some .finished) → s.queue = []

theorem poolInv_init {T R : Type} (items : List T) (f : T → R) (concurrency : Nat) :
    PoolInv items f (min concurrency items.length)
      (initState (R := R) items concurrency) := by
  constructor
  · simp [initState]
  · simp [initState]
  · intro e he
    obtain ⟨j, hj, h1, h2⟩ := mem_enumEntries he
    exact ⟨by omega, by
      obtain ⟨e1, e2⟩ := e
      simp at h1
      subst h1
      exact h2⟩
  · intro w i x hw
    rcases Nat.lt_or_ge w (min concurrency items.length) with hlt | hge
    · rw [show (initState (R := R) items concurrency).workers =
        List.replicate (min concurrency items.length) .idle from rfl] at hw
      rw [List.get?_eq_getElem?] at hw
      rw [List.getElem?_replicate] at hw
      simp [hlt] at hw
    · rw [show (initState (R := R) items concurrency).workers =
        List.replicate (min concurrency items.length) .idle from rfl] at hw
      have : (List.replicate (min concurrency items.length)
          (WorkerSt.idle : WorkerSt T)).get? w = none := by
        apply List.get?_eq_none.mpr
        simpa using hge
      rw [this] at hw
      exact absurd hw (by simp)
  · intro i r hr
    have hi : i < items.length := by
      have := get?_lt_of_some hr
      simpa [initState] using this
    rw [show (initState (R := R) items concurrency).results =
      List.replicate items.length none from rfl] at hr
    rw [List.get?_eq_getElem?, List.getElem?_replicate] at hr
    simp [hi] at hr
  · intro i hr
    have hi : i < items.length := by
      have := get?_lt_of_some hr
      simpa [initState] using this
    left
    refine ⟨items.get ⟨i, hi⟩, ?_⟩
    simpa using enumEntries_mem hi 0
  · intro ⟨w, hw⟩
    rw [show (initState (R := R) items concurrency).workers =
      List.replicate (min concurrency items.length) .idle from rfl] at hw
    rcases Nat.lt_or_ge w (min concurrency items.length) with hlt | hge
    · rw [List.get?_eq_getElem?, List.getElem?_replicate] at hw
      simp [hlt] at hw
    · have : (List.replicate (min concurrency items.length)
          (WorkerSt.idle : WorkerSt T)).get? w = none := by
        apply List.get?_eq_none.mpr
        simpa using hge
      rw [this] at hw
      exact absurd hw (by simp)

theorem poolInv_step {T R : Type} {items : List T} {f : T → R} {W : Nat}
    {s s' : PoolState T R} (hinv : PoolInv items f W s) (hstep : PoolStep f s s') :
    PoolInv items f W s' := by
  cases hstep with
  | grab w i x rest hw hq =>
    have hwlt : w < s.workers.length := get?_lt_of_some hw
    constructor
    · exact hinv.lenRes
    · rw [List.length_set]; exact hinv.lenW
    · intro e he
      exact hinv.queueOK e (by rw [hq]; exact List.mem_cons_of_mem _ he)
    · intro w' i' x' hw'
      by_cases hww : w = w'
      · subst hww
        rw [get?_set_self _ _ _ hwlt] at hw'
        injection hw' with h'
        cases h'
        exact hinv.queueOK (i, x) (by rw [hq]; exact List.mem_cons_self _ _)
      · rw [get?_set_ne _ _ _ _ hww] at hw'
        exact hinv.busyOK w' i' x' hw'
    · exact hinv.doneOK
    · intro i' hr
      rcases hinv.pending i' hr with ⟨x', hx'⟩ | ⟨w', x', hw'⟩
      · rw [hq] at hx'
        rcases List.mem_cons.mp hx' with h' | h'
        · right
          have h1 : i' = i := congrArg Prod.fst h'
          subst h1
          exact ⟨w, x, get?_set_self _ _ _ hwlt⟩
        · exact Or.inl ⟨x', h'⟩
      · by_cases hww : w = w'
        · subst hww
          rw [hw] at hw'
          exact absurd hw' (by simp)
        · exact Or.inr ⟨w', x', by rw [get?_set_ne _ _ _ _ hww]; exact hw'⟩
    · intro ⟨w', hw'⟩
      by_cases hww : w = w'
      · subst hww
        rw [get?_set_self _ _ _ hwlt] at hw'
        exact absurd hw' (by simp)
      · rw [get?_set_ne _ _ _ _ hww] at hw'
        have := hinv.finOK ⟨w', hw'⟩
        rw [hq] at this
        exact absurd this (by simp)
  | finish w i x hw =>
    have hwlt : w < s.workers.length := get?_lt_of_some hw
    obtain ⟨hi, hx⟩ := hinv.busyOK w i x hw
    have hires : i < s.results.length := by rw [hinv.lenRes]; exact hi
    constructor
    · rw [List.length_set]; exact hinv.lenRes
    · rw [List.length_set]; exact hinv.lenW
    · exact hinv.queueOK
    · intro w' i' x' hw'
      by_cases hww : w = w'
      · subst hww
        rw [get?_set_self _ _ _ hwlt] at hw'
        exact absurd hw' (by simp)
      · rw [get?_set_ne _ _ _ _ hww] at hw'
        exact hinv.busyOK w' i' x' hw'
    · intro i' r hr
      by_cases hii : i = i'
      · subst hii
        rw [get?_set_self _ _ _ hires] at hr
        injection hr with h'
        injection h' with h''
        exact ⟨hi, by rw [← h'', hx]⟩
      · rw [get?_set_ne _ _ _ _ hii] at hr
        exact hinv.doneOK i' r hr
    · intro i' hr
      by_cases hii : i = i'
      · subst hii
        rw [get?_set_self _ _ _ hires] at hr
        exact absurd hr (by simp)
      · rw [get?_set_ne _ _ _ _ hii] at hr
        rcases hinv.pending i' hr with h' | ⟨w', x', hw'⟩
        · exact Or.inl h'
        · by_cases hww : w = w'
          · subst hww
            rw [hw] at hw'
            injection hw' with h'
            injection h'  -- busy i x = busy i' x' forces i = i', contradiction
            · omega
          · exact Or.inr ⟨w', x', by rw [get?_set_ne _ _ _ _ hww]; exact hw'⟩
    · intro ⟨w', hw'⟩
      by_cases hww : w = w'
      · subst hww
        rw [get?_set_self _ _ _ hwlt] at hw'
        exact absurd hw' (by simp)
      · rw [get?_set_ne _ _ _ _ hww] at hw'
        exact hinv.finOK ⟨w', hw'⟩
  | retire w hw hq =>
    have hwlt : w < s.workers.length := get?_lt_of_some hw
    constructor
    · exact hinv.lenRes
    · rw [List.length_set]; exact hinv.lenW
    · exact hinv.queueOK
    · intro w' i' x' hw'
      by_cases hww : w = w'
      · subst hww
        rw [get?_set_self _ _ _ hwlt] at hw'
        exact absurd hw' (by simp)
      · rw [get?_set_ne _ _ _ _ hww] at hw'
        exact hinv.busyOK w' i' x' hw'
    · exact hinv.doneOK
    · intro i' hr
      rcases hinv.pending i' hr with ⟨x', hx'⟩ | ⟨w', x', hw'⟩
      · rw [hq] at hx'
        exact absurd hx' (by simp)
      · by_cases hww : w = w'
        · subst hww
          rw [hw] at hw'
          exact absurd hw' (by simp)
        · exact Or.inr ⟨w', x', by rw [get?_set_ne _ _ _ _ hww]; exact hw'⟩
    · intro _
      exact hq

theorem poolInv_reach {T R : Type} {items : List T} {f : T → R} {W : Nat}
    {s s' : PoolState T R} (hinv : PoolInv items f W s) (hreach : PoolReach f s s') :
    PoolInv items f W s' := by
  induction hreach with
  | refl => exact hinv
  | tail _ hstep ih => exact poolInv_step ih hstep

theorem poolDone_all_finished {T R : Type} {f : T → R} {s : PoolState T R}
    (hdone : PoolDone f s) :
    ∀ w st, s.workers.get? w = some st → st = .finished := by
  intro w st hw
  cases st with
  | idle =>
    cases hq : s.queue with
    | nil => exact (hdone _ (PoolStep.retire s w hw hq)).elim
    | cons e rest =>
      obtain ⟨i, x⟩ := e
      exact (hdone _ (PoolStep.grab s w i x rest hw hq)).elim
  | busy i x => exact (hdone _ (PoolStep.finish s w i x hw)).elim
  | finished => rfl

/-- C3: for every item list, per-item function and concurrency limit
`C ≥ 1`, any completed run of the `mapWithConcurrency` worker pool — under
any scheduling whatsoever — leaves a result array of the input's length
whose slot `i` holds exactly `fn items[i]`. -/
theorem mapWithConcurrency_output (T R : Type) (items : List T) (f : T → R)
    (C : Nat) (hC : 1 ≤ C) (s : PoolState T R)
    (hreach : PoolReach f (initState items C) s) (hdone : PoolDone f s) :
    s.results.length = items.length ∧
      ∀ i (hi : i < items.length),
        s.results.get? i = some (some (f (items.get ⟨i, hi⟩))) := by
  have hinv := poolInv_reach (poolInv_init items f C) hreach
  refine ⟨hinv.lenRes, ?_⟩
  intro i hi
  have hires : i < s.results.length := by rw [hinv.lenRes]; exact hi
  obtain ⟨r, hr⟩ : ∃ r, s.results.get? i = some r := ⟨_, List.get?_eq_get hires⟩
  cases r with
  | none =>
    rcases hinv.pending i hr with ⟨x, hx⟩ | ⟨w, x, hw⟩
    · have hW : 1 ≤ s.workers.length := by
        rw [hinv.lenW]
        exact Nat.le_min.mpr ⟨hC, by omega⟩
      obtain ⟨st, hst⟩ : ∃ st, s.workers.get? 0 = some st :=
        ⟨_, List.get?_eq_get (by omega)⟩
      have hfin := poolDone_all_finished hdone 0 st hst
      subst hfin
      have hqnil := hinv.finOK ⟨0, hst⟩
      rw [hqnil] at hx
      exact absurd hx (by simp)
    · have := poolDone_all_finished hdone w _ hw
      exact absurd this (by simp)
  | some r =>
    obtain ⟨hi', hr'⟩ := hinv.doneOK i r hr
    rw [hr, hr']

/-- C9: along every run of the pool over any inputs with `C < N`, the
number of in-flight `fn` applications never exceeds the concurrency
limit `C`. -/
theorem mapWithConcurrency_inflight (T R : Type) (items : List T) (f : T → R)
    (C : Nat) (hNC : C < items.length) (s : PoolState T R)
    (hreach : PoolReach f (initState items C) s) : inFlight s ≤ C := by
  have hinv := poolInv_reach (poolInv_init items f C) hreach
  calc inFlight s ≤ s.workers.length := List.countP_le_length _
    _ = min C items.length := hinv.lenW
    _ ≤ C := min_le_left _ _

/-! A concrete complete run over `[10, 20]` with one worker. -/

def poolS0 : PoolState Nat Nat := initState [10, 20] 1
def poolS1 : PoolState Nat Nat :=
  { queue := [(1, 20)], results := [none, none], workers := [.busy 0 10] }
def poolS2 : PoolState Nat Nat :=
  { queue := [(1, 20)], results := [some 11, none], workers := [.idle] }
def poolS3 : PoolState Nat Nat :=
  { queue := [], results := [some 11, none], workers := [.busy 1 20] }
def poolS4 : PoolState Nat Nat :=
  { queue := [], results := [some 11, some 21], workers := [.idle] }
def poolS5 : PoolState Nat Nat :=
  { queue := [], results := [some 11, some 21], workers := [.finished] }

theorem poolTrace3 : PoolReach Nat.succ poolS0 poolS3 := by
  have h1 : PoolStep Nat.succ poolS0 poolS1 :=
    PoolStep.grab poolS0 0 0 10 [(1, 20)] rfl rfl
  have h2 : PoolStep Nat.succ poolS1 poolS2 :=
    PoolStep.finish poolS1 0 0 10 rfl
  have h3 : PoolStep Nat.succ poolS2 poolS3 :=
    PoolStep.grab poolS2 0 1 20 [] rfl rfl
  exact Relation.ReflTransGen.tail
    (Relation.ReflTransGen.tail
      (Relation.ReflTransGen.tail Relation.ReflTransGen.refl h1) h2) h3

theorem poolTrace5 : PoolReach Nat.succ poolS0 poolS5 := by
  have h4 : PoolStep Nat.succ poolS3 poolS4 :=
    PoolStep.finish poolS3 0 1 20 rfl
  have h5 : PoolStep Nat.succ poolS4 poolS5 :=
    PoolStep.retire poolS4 0 rfl rfl
  exact Relation.ReflTransGen.tail (Relation.ReflTransGen.tail poolTrace3 h4) h5

theorem poolS5_done : PoolDone Nat.succ poolS5 := by
  intro s' h
  cases h with
  | grab w i x rest hw hq => simp [poolS5] at hq
  | finish w i x hw =>
    rcases w with _ | w <;> simp [poolS5, List.get?] at hw
  | retire w hw hq =>
    rcases w with _ | w <;> simp [poolS5, List.get?] at hw

theorem mapWithConcurrency_output_witness :
    1 ≤ 1 ∧ (poolS5.results.length = ([10, 20] : List Nat).length ∧
      ∀ i (hi : i < ([10, 20] : List Nat).length),
        poolS5.results.get? i = some (some (Nat.succ (([10, 20] : List Nat).get ⟨i, hi⟩)))) :=
  ⟨Nat.le_refl 1,
    mapWithConcurrency_output Nat Nat [10, 20] Nat.succ 1 (Nat.le_refl 1)
      poolS5 poolTrace5 poolS5_done⟩

theorem mapWithConcurrency_inflight_witness :
    1 < ([10, 20] : List Nat).length ∧ inFlight poolS3 ≤ 1 :=
  ⟨by decide,
    mapWithConcurrency_inflight Nat Nat [10, 20] Nat.succ 1 (by decide)
      poolS3 poolTrace3⟩
